import Mathlib

/-!
# Verification of the grab-it-yourself-scraper content normalizer

Shallow embedding of `FirecrawlService` (src/unnamed/part_002): the
filename-to-title transform `formatFilenameAsTitle`, the content
normalizer `parseFirecrawlData` (structured and raw-HTML modes), and the
fetch orchestrator `scrapeWebsite`.

Strings are modelled as Lean `String`/`List Char`; all inputs of interest
are ASCII, so JavaScript's UTF-16 `length` coincides with the character
count.  Browser platform APIs used by the code (`DOMParser`, the WHATWG
`URL` constructor, `decodeURIComponent`) are not repository code; they are
passed to the normalizer as an explicit `Platform` record, with concrete
models (`browserModel`) faithful to the platform behaviour on the flat
markup and simple URLs exercised here.  The scanning loops that embed the
JavaScript global-regex `exec` loops use an explicit fuel argument (always
instantiated with the string length, which suffices since every match or
skip consumes at least one character).
-/

namespace Scraper

/-- ASCII approximation of the JavaScript `\s` character class
(space, tab, line feed, carriage return, vertical tab, form feed). -/
def jsSpace (c : Char) : Bool :=
  c = ' ' || c = '\t' || c = '\n' || c = '\r' || c = Char.ofNat 11 || c = Char.ofNat 12

/-- The double-quote character. -/
def dquote : Char := Char.ofNat 34

/-- The single-quote character. -/
def squote : Char := Char.ofNat 39

def isQuote (c : Char) : Bool := c = dquote || c = squote

/-- ASCII model of JavaScript `toLowerCase` on one character. -/
def lowerC (c : Char) : Char :=
  if 'A' ≤ c ∧ c ≤ 'Z' then Char.ofNat (c.toNat + 32) else c

/-- ASCII model of JavaScript `toUpperCase` on one character. -/
def upperC (c : Char) : Char :=
  if 'a' ≤ c ∧ c ≤ 'z' then Char.ofNat (c.toNat - 32) else c

def lowerS (s : String) : String := String.mk (s.data.map lowerC)

def upperS (s : String) : String := String.mk (s.data.map upperC)

def isDigitC (c : Char) : Bool := '0' ≤ c ∧ c ≤ '9'

def isAlphaC (c : Char) : Bool := ('a' ≤ c ∧ c ≤ 'z') ∨ ('A' ≤ c ∧ c ≤ 'Z')

/-- `l` starts with the character list `p`. -/
def startsWithL (l p : List Char) : Bool := p.isPrefixOf l

/-- Model of JavaScript `String.prototype.startsWith`. -/
def startsWithS (s p : String) : Bool := startsWithL s.data p.data

/-- Model of JavaScript `String.prototype.trim` (ASCII whitespace). -/
def trimL (l : List Char) : List Char :=
  ((l.dropWhile jsSpace).reverse.dropWhile jsSpace).reverse

def trimS (s : String) : String := String.mk (trimL s.data)

/-- JavaScript `split(c)` semantics on a character list: splits at every
occurrence of `c`, keeping empty pieces; the empty string yields `[[]]`. -/
def splitBy (c : Char) (l : List Char) : List (List Char) :=
  l.foldr
    (fun ch acc =>
      if ch = c then [] :: acc
      else
        match acc with
        | w :: rest => (ch :: w) :: rest
        | [] => [[ch]])
    [[]]

def joinBy (c : Char) (ws : List (List Char)) : List Char :=
  match ws with
  | [] => []
  | [w] => w
  | w :: rest => w ++ c :: joinBy c rest

/-- Truthiness of an optional JavaScript string: `null`/`undefined` and the
empty string are falsy. -/
def truthyS : Option String → Bool
  | none => false
  | some s => s ≠ ""

/-- JavaScript `o || d` for an optional string `o` and default `d`. -/
def jsOr (o : Option String) (d : String) : String :=
  match o with
  | some s => if s = "" then d else s
  | none => d

/-- `[s]` when the optional string is truthy, else `[]` (models a guarded
`push`). -/
def optPush (o : Option String) : List String :=
  match o with
  | some s => if s = "" then [] else [s]
  | none => []

/-! ## `formatFilenameAsTitle` (source lines 21-50) -/

/-- Source line 23: `title = filename.replace(/\.pdf$/i, '')` — strip a
trailing `.pdf` extension, case-insensitively. -/
def stripPdfExt (l : List Char) : List Char :=
  if ((l.drop (l.length - 4)).map lowerC) = '.' :: 'p' :: 'd' :: 'f' :: [] ∧ 4 ≤ l.length
  then l.take (l.length - 4)
  else l

/-- Source line 26: `title.replace(/[-_.]/g, ' ')`. -/
def dashToSpace (c : Char) : Char :=
  if c = '-' ∨ c = '_' ∨ c = '.' then ' ' else c

/-- Take a maximal nonempty run of characters satisfying `p` (used to parse
the date regex from the end of the string); `none` when the run is empty. -/
def takeRun (p : Char → Bool) (l : List Char) : Option (List Char × List Char) :=
  let run := l.takeWhile p
  if run = [] then none else some (run, l.drop run.length)

/-- Source lines 30-36: the date-suffix rule
`/(.+?)\s+(\d+\s+\d+\s+\d+)$/`.  Parsed from the end of the string: a
maximal digit run, then whitespace, digits, whitespace, digits, whitespace,
and a nonempty remainder (the lazy group `(.+?)`, which cannot span a line
feed); when the pattern matches, the remainder alone is kept. -/
def dateStrip (l : List Char) : List Char :=
  let r := l.reverse
  match takeRun isDigitC r with
  | none => l
  | some (_, r1) =>
    match takeRun jsSpace r1 with
    | none => l
    | some (_, r2) =>
      match takeRun isDigitC r2 with
      | none => l
      | some (_, r3) =>
        match takeRun jsSpace r3 with
        | none => l
        | some (_, r4) =>
          match takeRun isDigitC r4 with
          | none => l
          | some (_, r5) =>
            match takeRun jsSpace r5 with
            | none => l
            | some (_, rest) =>
              if rest ≠ [] ∧ ¬ rest.contains '\n' then rest.reverse else l

/-- Source lines 39-46: title-case one word; an all-uppercase word longer
than one character is preserved (acronym rule). -/
def capWord (w : String) : String :=
  if w = "" then ""
  else if w = upperS w ∧ 1 < w.length then w
  else
    match w.data with
    | [] => ""
    | c :: rest => String.mk (upperC c :: rest.map lowerC)

/-- Source lines 21-50: `formatFilenameAsTitle` — strip the `.pdf`
extension, turn `-`/`_`/`.` into spaces, drop a trailing date-like triplet
of number groups, title-case each space-separated word (preserving
acronyms) and trim. -/
def formatFilenameAsTitle (filename : String) : String :=
  let t1 := stripPdfExt filename.data
  let t2 := t1.map dashToSpace
  let t3 := dateStrip t2
  let words := (splitBy ' ' t3).map (fun w => capWord (String.mk w))
  trimS (String.mk (joinBy ' ' (words.map String.data)))

/-! ## Data model -/

/-- One entry of the `images` output array. -/
structure ImageItem where
  src : String
  alt : String
deriving DecidableEq

/-- One entry of the `pdfs` output array. -/
structure PdfItem where
  href : String
  title : String
deriving DecidableEq

/-- The structured extraction object optionally carried by the payload. -/
structure ExtractedData where
  title : Option String
  description : Option String
  textContent : Option (List String)
  images : Option (List ImageItem)
  pdfLinks : Option (List PdfItem)
deriving DecidableEq

/-- The payload handed by the orchestrator to `parseFirecrawlData`
(source lines 127-138). -/
structure PayloadData where
  html : Option String
  rawHtml : Option String
  extractedData : Option ExtractedData
  title : Option String
  description : Option String
deriving DecidableEq

/-- The normalizer's output (the `timestamp` field, a wall-clock reading,
is omitted: no claim concerns it). -/
structure ScrapedData where
  url : String
  title : String
  description : String
  text : List String
  images : List ImageItem
  pdfs : List PdfItem
deriving DecidableEq

/-- The browser platform APIs the normalizer calls, passed explicitly:
`dom html` models `DOMParser` + removal of non-content elements +
main-content selection + `querySelectorAll` over the content tags,
returning the content elements' `textContent` values in document order
(`none` models the parse throwing, the code's catch branch);
`resolve rel base` models `new URL(rel, base).href` (`none` = throws);
`pathname u` models `new URL(u).pathname` (`none` = throws);
`decode` models `decodeURIComponent`. -/
structure Platform where
  dom : String → Option (List String)
  resolve : String → String → Option String
  pathname : String → Option String
  decode : String → String

/-! ## Raw-HTML text extraction (source lines 190-199) -/

/-- The `forEach` loop over the content elements with the `seenText` set:
each element's trimmed text is kept when it is nonempty, not yet seen and
strictly longer than 10 characters. -/
def extractTextsGo : List String → List String → List String
  | _, [] => []
  | seen, t :: rest =>
    if trimS t ≠ "" ∧ trimS t ∉ seen ∧ 10 < (trimS t).length
    then trimS t :: extractTextsGo (trimS t :: seen) rest
    else extractTextsGo seen rest

def extractElementTexts (els : List String) : List String := extractTextsGo [] els

/-- Source line 203: `html.replace(/<[^>]*>/g, ' ')` — each `<...>` span
becomes one space; a `<` with no later `>` is left untouched. -/
def stripTags : Nat → List Char → List Char
  | 0, l => l
  | fuel + 1, l =>
    match l with
    | [] => []
    | '<' :: rest =>
      let a := rest.takeWhile (· ≠ '>')
      match rest.drop a.length with
      | [] => '<' :: rest
      | _ :: after => ' ' :: stripTags fuel after
    | c :: t => c :: stripTags fuel t

/-- Source line 203: `.replace(/\s+/g, ' ')`. -/
def collapseWs : Nat → List Char → List Char
  | 0, l => l
  | fuel + 1, l =>
    match l with
    | [] => []
    | c :: t =>
      if jsSpace c then ' ' :: collapseWs fuel (t.dropWhile jsSpace)
      else c :: collapseWs fuel t

/-- Source lines 202-204: the catch branch — strip tags, collapse
whitespace, trim, and push the result when nonempty. -/
def fallbackStrip (html : String) : List String :=
  let t := trimL (collapseWs html.length (stripTags html.length html.data))
  if t = [] then [] else [String.mk t]

/-! ## Image extraction (source lines 209-232)

The JavaScript global regex `exec` loop over
`/<img[^>]+src=["']([^"']+)["'][^>]*>/gi` is embedded as a scanner with
fuel (always run with the string length, which suffices since every match
or skip consumes at least one character). -/

/-- The tail `src=["']([^"']+)["'][^>]*>` of the image regex, matched at
the head of `m`; returns the number of consumed characters on success. -/
def matchSrcTail (m : List Char) : Option Nat :=
  match m with
  | s :: r :: c :: '=' :: q :: rest =>
    if lowerC s = 's' ∧ lowerC r = 'r' ∧ lowerC c = 'c' ∧ isQuote q then
      let cap := rest.takeWhile (fun ch => ¬ isQuote ch)
      if cap = [] then none
      else
        match rest.drop cap.length with
        | [] => none
        | _ :: rest2 =>
          let z := rest2.takeWhile (· ≠ '>')
          match rest2.drop z.length with
          | '>' :: _ => some (5 + cap.length + 1 + z.length + 1)
          | _ => none
    else none
  | _ => none

/-- Greedy `[^>]+` between `<img` and `src=`: the longest gap is tried
first and shortened on failure, which finds the rightmost viable `src=`,
as the backtracking engine does. -/
def imgTryLen (rest : List Char) : Nat → Option (Nat × Nat)
  | 0 => none
  | n + 1 =>
    match matchSrcTail (rest.drop (n + 1)) with
    | some k => some (n + 1, k)
    | none => imgTryLen rest n

/-- One attempt of the image regex anchored at the head of `l`; on success
returns the whole match (the tag text) and the remainder of the input. -/
def matchImgAt (l : List Char) : Option (List Char × List Char) :=
  match l with
  | '<' :: i :: m :: g :: rest =>
    if lowerC i = 'i' ∧ lowerC m = 'm' ∧ lowerC g = 'g' then
      let run := rest.takeWhile (· ≠ '>')
      match imgTryLen rest run.length with
      | some (len, k) =>
        let total := 4 + len + k
        some (l.take total, l.drop total)
      | none => none
    else none
  | _ => none

/-- The `while ((match = imgRegex.exec(html)) !== null)` loop: successive
non-overlapping leftmost matches. -/
def imgScan : Nat → List Char → List (List Char)
  | 0, _ => []
  | fuel + 1, l =>
    match matchImgAt l with
    | some (tag, rest) => tag :: imgScan fuel rest
    | none =>
      match l with
      | [] => []
      | _ :: t => imgScan fuel t

def findImgTags (html : String) : List (List Char) := imgScan html.length html.data

/-- Source line 217: `imgTag.match(/src=["']([^"']+)["']/i)` — leftmost
occurrence, capture returned. -/
def srcScan : Nat → List Char → Option (List Char)
  | 0, _ => none
  | fuel + 1, l =>
    match l with
    | s :: r :: c :: '=' :: q :: rest =>
      if lowerC s = 's' ∧ lowerC r = 'r' ∧ lowerC c = 'c' ∧ isQuote q then
        let cap := rest.takeWhile (fun ch => ¬ isQuote ch)
        if cap ≠ [] ∧ rest.drop cap.length ≠ [] then some cap
        else srcScan fuel (r :: c :: '=' :: q :: rest)
      else srcScan fuel (r :: c :: '=' :: q :: rest)
    | _ :: t => srcScan fuel t
    | [] => none

/-- Source line 212: `/alt=["']([^"']*)["']/i` — the capture may be
empty. -/
def altScan : Nat → List Char → Option (List Char)
  | 0, _ => none
  | fuel + 1, l =>
    match l with
    | a1 :: a2 :: a3 :: '=' :: q :: rest =>
      if lowerC a1 = 'a' ∧ lowerC a2 = 'l' ∧ lowerC a3 = 't' ∧ isQuote q then
        let cap := rest.takeWhile (fun ch => ¬ isQuote ch)
        if rest.drop cap.length ≠ [] then some cap
        else altScan fuel (a2 :: a3 :: '=' :: q :: rest)
      else altScan fuel (a2 :: a3 :: '=' :: q :: rest)
    | _ :: t => altScan fuel t
    | [] => none

/-- Source lines 215-230: one iteration of the image loop — re-extract the
`src` attribute from the matched tag, cut it at the first whitespace or
question mark, read the `alt` attribute (defaulting to `"Image"` when
absent or empty), then pass the value through unchanged when it starts
with `http` and otherwise resolve it against the page URL, dropping the
image when resolution throws. -/
def processImgTag (pf : Platform) (url : String) (tag : List Char) : Option ImageItem :=
  match srcScan tag.length tag with
  | none => none
  | some cap =>
    let src := String.mk (cap.takeWhile (fun c => ¬ (jsSpace c || c = '?')))
    let alt :=
      match altScan tag.length tag with
      | some a => if a = [] then "Image" else String.mk a
      | none => "Image"
    if startsWithS src "http" then some ⟨src, alt⟩
    else
      match pf.resolve src url with
      | some abs => some ⟨abs, alt⟩
      | none => none

def extractImages (pf : Platform) (html url : String) : List ImageItem :=
  (findImgTags html).filterMap (processImgTag pf url)

/-! ## PDF-link extraction (source lines 234-267)

The anchor regex is `/<a\s+(?:[^>]*?\s+)?href=(["'])(.*?)\1/gi`: after
`<a` and mandatory whitespace comes an optional lazy run ending in
whitespace, then `href=`, an opening quote, a lazy value up to the first
occurrence of the same quote.  Note the match therefore ends at the
closing quote of the `href` value — it does not span the `>` of the open
tag, let alone the anchor's inner text. -/

/-- The tail `href=(["'])(.*?)\1` at the head of `m`: consumed length and
the captured value (the lazy dot cannot cross a line break). -/
def matchHrefAt (m : List Char) : Option (Nat × List Char) :=
  match m with
  | h :: r :: e :: f :: '=' :: q :: rest =>
    if lowerC h = 'h' ∧ lowerC r = 'r' ∧ lowerC e = 'e' ∧ lowerC f = 'f' ∧ isQuote q then
      let v := rest.takeWhile (· ≠ q)
      match rest.drop v.length with
      | [] => none
      | _ :: _ =>
        if v.contains '\n' ∨ v.contains '\r' then none
        else some (6 + v.length + 1, v)
    else none
  | _ => none

/-- The option-absent branch of the anchor regex: the gap between `<a` and
`href=` is exactly the maximal leading whitespace run. -/
def anchorAbsent (R : List Char) (wsMax : Nat) : Option (Nat × Nat × List Char) :=
  match matchHrefAt (R.drop wsMax) with
  | some (k, v) => some (wsMax, k, v)
  | none => none

/-- The option-present branch `(?:[^>]*?\s+)?`, explored lazily: gaps
longer than the whitespace run, in increasing length, each required to be
free of `>` and to end in whitespace; when all fail, the option-absent
branch is tried.  A `>` in the gap ends the exploration since every longer
gap also contains it. -/
def anchorPresent (R : List Char) (wsMax : Nat) : Nat → Nat → Option (Nat × Nat × List Char)
  | _, 0 => anchorAbsent R wsMax
  | j, fuel + 1 =>
    let gap := R.take j
    if gap.contains '>' then anchorAbsent R wsMax
    else if jsSpace (gap.getLastD ' ') then
      match matchHrefAt (R.drop j) with
      | some (k, v) => some (j, k, v)
      | none => anchorPresent R wsMax (j + 1) fuel
    else anchorPresent R wsMax (j + 1) fuel

/-- One attempt of the anchor regex anchored at the head of `l`; on
success returns the whole match `match[0]`, the captured `href` value
`match[2]`, and the remainder of the input. -/
def matchAnchorAt (l : List Char) : Option (List Char × List Char × List Char) :=
  match l with
  | '<' :: a :: R0 =>
    if lowerC a = 'a' then
      let wsMax := (R0.takeWhile jsSpace).length
      if wsMax = 0 then none
      else
        match anchorPresent R0 wsMax (wsMax + 1) R0.length with
        | some (j, k, v) =>
          let total := 2 + j + k
          some (l.take total, v, l.drop total)
        | none => none
    else none
  | _ => none

/-- The `while ((match = linkRegex.exec(html)) !== null)` loop, yielding
`(match[0], match[2])` pairs. -/
def anchorScan : Nat → List Char → List (List Char × List Char)
  | 0, _ => []
  | fuel + 1, l =>
    match matchAnchorAt l with
    | some (m0, v, rest) => (m0, v) :: anchorScan fuel rest
    | none =>
      match l with
      | [] => []
      | _ :: t => anchorScan fuel t

/-- The lazy capture of `/>(.*?)<\/a>/i` after a fixed `>`: extend until a
case-insensitive `</a>` starts; fail at a line break (the dot cannot cross
it) or at the end of the string. -/
def titleCap : Nat → List Char → Option (List Char)
  | 0, _ => none
  | fuel + 1, l =>
    match l with
    | '<' :: '/' :: a :: '>' :: rest =>
      if lowerC a = 'a' then some []
      else (titleCap fuel ('/' :: a :: '>' :: rest)).map (fun t => '<' :: t)
    | c :: t =>
      if c = '\n' ∨ c = '\r' then none
      else (titleCap fuel t).map (fun u => c :: u)
    | [] => none

/-- Source line 244: `match[0].match(/>(.*?)<\/a>/i)` — the leftmost `>`
from which a capture up to `</a>` succeeds. -/
def titleScan : Nat → List Char → Option (List Char)
  | 0, _ => none
  | fuel + 1, l =>
    match l with
    | '>' :: t =>
      match titleCap t.length t with
      | some cap => some cap
      | none => titleScan fuel t
    | _ :: t => titleScan fuel t
    | [] => none

/-- Source line 242: `href.toLowerCase().endsWith('.pdf')`. -/
def endsWithPdfCI (l : List Char) : Bool :=
  startsWithL (l.map lowerC).reverse ('f' :: 'd' :: 'p' :: '.' :: [])

/-- Source lines 255-256: `pathname.split('/')`, last element. -/
def lastSegmentOf (p : List Char) : List Char := (splitBy '/' p).getLastD []

/-- Source lines 241-264: one iteration of the PDF loop — keep only
`.pdf` hrefs; try to read a title from the link text inside `match[0]`
(which never reaches past the closing quote, so this is always empty for
well-formed markup); pass the href through when it starts with `http`,
else resolve it against the page URL; when the title is empty, derive it
from the filename component of `new URL(absoluteHref).pathname`; any URL
constructor throw drops the link. -/
def processPdfMatch (pf : Platform) (url : String) (m0 v : List Char) : Option PdfItem :=
  if endsWithPdfCI v then
    let title :=
      match titleScan m0.length m0 with
      | some cap => trimL cap
      | none => []
    let href := String.mk v
    let absOpt := if startsWithS href "http" then some href else pf.resolve href url
    match absOpt with
    | none => none
    | some abs =>
      if title = [] then
        match pf.pathname abs with
        | none => none
        | some pn =>
          let filename := String.mk (lastSegmentOf pn.data)
          some ⟨abs, formatFilenameAsTitle (pf.decode filename)⟩
      else some ⟨abs, String.mk title⟩
  else none

def extractPdfs (pf : Platform) (html url : String) : List PdfItem :=
  (anchorScan html.length html.data).filterMap (fun p => processPdfMatch pf url p.1 p.2)

/-! ## The normalizer `parseFirecrawlData` (source lines 126-278) -/

/-- Source lines 126-278.  Structured mode (lines 139-164): lift title,
description, text, images and PDF links directly from `extractedData`.
Raw-HTML mode (lines 166-277): title and description first, then the
DOM-extracted element texts (or the tag-stripping fallback when the parse
throws), then regex-extracted images and PDF links; every branch is
guarded by `if (html)`. -/
def parseFirecrawlData (pf : Platform) (data : PayloadData) (url : String) : ScrapedData :=
  match data.extractedData with
  | some ed =>
    { url := url
      title := jsOr ed.title "Scraped Content"
      description := jsOr ed.description "Content extracted from website"
      text := optPush ed.title ++ optPush ed.description ++ ed.textContent.getD []
      images := ed.images.getD []
      pdfs := ed.pdfLinks.getD [] }
  | none =>
    let html := jsOr data.html (jsOr data.rawHtml "")
    let domTexts :=
      if html = "" then []
      else
        match pf.dom html with
        | some els => extractElementTexts els
        | none => fallbackStrip html
    { url := url
      title := jsOr data.title "Scraped Content"
      description := jsOr data.description "Content extracted from website"
      text := optPush data.title ++ optPush data.description ++ domTexts
      images := if html = "" then [] else extractImages pf html url
      pdfs := if html = "" then [] else extractPdfs pf html url }

/-! ## The orchestrator `scrapeWebsite` (source lines 52-124) -/

/-- Source lines 52-62: the API key is the environment value when truthy,
else the persisted local value. -/
def getApiKey (env ls : Option String) : Option String :=
  if truthyS env then env else ls

/-- The classified outcome of the single network round trip: a non-success
HTTP status (with the optional `error` field of the parsed error body), an
HTTP success whose body carries `success: false`, a successful body, or a
thrown transport/JSON error. -/
inductive FetchOutcome where
  | httpError (status : Nat) (statusText : String) (bodyError : Option String)
  | serviceFailure (bodyError : Option String)
  | ok (data : PayloadData)
  | netThrow (msg : String)
deriving DecidableEq

/-- The result shape of `scrapeWebsite`. -/
structure FirecrawlResult where
  success : Bool
  data : Option ScrapedData
  error : Option String
deriving DecidableEq

/-- Source lines 65-124: `scrapeWebsite` — fail with the
missing-credential message before any network call when the resolved API
key is falsy; otherwise perform exactly one call and classify it.  The
second component counts network calls. -/
def scrapeWebsite (env ls : Option String) (pf : Platform) (net : FetchOutcome)
    (url : String) : FirecrawlResult × Nat :=
  let apiKey := getApiKey env ls
  if truthyS apiKey = false then
    ({ success := false, data := none,
       error := some "API key not found. Please enter your Firecrawl API key." }, 0)
  else
    match net with
    | .httpError st stx body =>
      ({ success := false, data := none,
         error := some (jsOr body ("HTTP " ++ toString st ++ ": " ++ stx)) }, 1)
    | .serviceFailure body =>
      ({ success := false, data := none,
         error := some (jsOr body "Scraping failed") }, 1)
    | .ok d =>
      ({ success := true, data := some (parseFirecrawlData pf d url), error := none }, 1)
    | .netThrow m =>
      ({ success := false, data := none, error := some m }, 1)

/-! ## Concrete platform models

`DOMParser`, the WHATWG `URL` constructor and `decodeURIComponent` are
browser APIs, not repository code; the following models are faithful to
the platform behaviour on the inputs exercised by the theorems below and
state their restrictions explicitly. -/

def isSchemeChar (c : Char) : Bool := isAlphaC c || isDigitC c || c = '+' || c = '-' || c = '.'

/-- The scheme of `l` when it starts with a valid URL scheme (a letter
followed by letters, digits, `+`, `-` or `.`) and a colon: the scheme and
the remainder after the colon. -/
def schemeOf (l : List Char) : Option (List Char × List Char) :=
  let run := l.takeWhile isSchemeChar
  match run with
  | [] => none
  | c :: _ =>
    if isAlphaC c then
      match l.drop run.length with
      | ':' :: rest => some (run, rest)
      | _ => none
    else none

/-- A string is an absolute URL when it carries a URL scheme. -/
def isAbsoluteUrl (s : String) : Bool := (schemeOf s.data).isSome

structure UrlParts where
  scheme : String
  host : String
  path : String
deriving DecidableEq

def isHostEnd (c : Char) : Bool := c = '/' || c = '?' || c = '#'

/-- Model of the WHATWG absolute-URL parser restricted to
`scheme://host/path` shapes: lowercases scheme and host, defaults the path
to `/`, cuts the path at a query or fragment; `none` (the constructor
throws) when there is no valid scheme, no `://` authority, or an empty
host. -/
def parseAbsUrl (s : String) : Option UrlParts :=
  match schemeOf s.data with
  | none => none
  | some (sch, rest) =>
    match rest with
    | '/' :: '/' :: r =>
      let host := r.takeWhile (fun c => ¬ isHostEnd c)
      if host = [] then none
      else
        let tail0 := r.drop host.length
        let path := tail0.takeWhile (fun c => c ≠ '?' ∧ c ≠ '#')
        some ⟨lowerS (String.mk sch), lowerS (String.mk host),
              if path = [] then "/" else String.mk path⟩
    | _ => none

/-- The WHATWG remove-dot-segments algorithm on a path beginning with
`/`: `.` segments vanish, `..` pops one segment, a trailing `.` or `..`
leaves a trailing slash. -/
def remDotSegs (p : List Char) : List Char :=
  let segs := (splitBy '/' p).drop 1
  let out := segs.foldl
    (fun (st : List (List Char)) seg =>
      if seg = ['.'] then st
      else if seg = '.' :: '.' :: [] then st.dropLast
      else st ++ [seg]) []
  let out :=
    if segs.getLastD [] = ['.'] ∨ segs.getLastD [] = '.' :: '.' :: [] then out ++ [[]]
    else out
  '/' :: joinBy '/' out

/-- The directory of a path: everything up to and including the last
slash. -/
def dirOf (path : List Char) : List Char :=
  (path.reverse.dropWhile (· ≠ '/')).reverse

/-- Model of WHATWG relative-URL resolution — `new URL(rel, base).href` —
restricted to http(s)-style bases and to references without query or
fragment handling (such characters are treated as path characters;
non-authority schemes such as `mailto:` are not modelled).  `none` models
the constructor throwing: an unparseable base, or a protocol-relative
reference with an empty host. -/
def resolveUrlModel (rel base : String) : Option String :=
  match parseAbsUrl base with
  | none => none
  | some b =>
    match rel.data with
    | [] => some (b.scheme ++ "://" ++ b.host ++ b.path)
    | '/' :: '/' :: r =>
      let host := r.takeWhile (fun c => ¬ isHostEnd c)
      if host = [] then none
      else
        let tail0 := r.drop host.length
        some (b.scheme ++ "://" ++ lowerS (String.mk host) ++
          (if tail0 = [] then "/" else String.mk (remDotSegs tail0)))
    | '/' :: r => some (b.scheme ++ "://" ++ b.host ++ String.mk (remDotSegs ('/' :: r)))
    | l =>
      match schemeOf l with
      | some _ =>
        match parseAbsUrl rel with
        | some u => some (u.scheme ++ "://" ++ u.host ++ u.path)
        | none => none
      | none =>
        some (b.scheme ++ "://" ++ b.host ++ String.mk (remDotSegs (dirOf b.path.data ++ l)))

/-- Model of `new URL(u).pathname`. -/
def pathnameModel (s : String) : Option String :=
  (parseAbsUrl s).map (fun u => u.path)

def hexVal (c : Char) : Option Nat :=
  if isDigitC c then some (c.toNat - '0'.toNat)
  else if 'a' ≤ c ∧ c ≤ 'f' then some (c.toNat - 'a'.toNat + 10)
  else if 'A' ≤ c ∧ c ≤ 'F' then some (c.toNat - 'A'.toNat + 10)
  else none

/-- Model of `decodeURIComponent` for single-byte percent escapes (no
claim exercises multi-byte sequences or the throwing cases). -/
def percentDecode : Nat → List Char → List Char
  | 0, l => l
  | fuel + 1, l =>
    match l with
    | [] => []
    | '%' :: h1 :: h2 :: rest =>
      match hexVal h1, hexVal h2 with
      | some a, some b => Char.ofNat (16 * a + b) :: percentDecode fuel rest
      | _, _ => '%' :: percentDecode fuel (h1 :: h2 :: rest)
    | c :: t => c :: percentDecode fuel t

def decodePercentS (s : String) : String := String.mk (percentDecode s.length s.data)

/-- The content tags of the `querySelectorAll` at source line 190. -/
def contentTags : List (List Char) :=
  (["h1", "h2", "h3", "h4", "h5", "h6", "p", "li", "td", "th",
    "blockquote", "pre", "code"].map String.data)

/-- When `l` starts with the closing tag `</name`, the remainder after its
`>`. -/
def closeTagAt (name : List Char) (l : List Char) : Option (List Char) :=
  match l with
  | '<' :: '/' :: r =>
    if startsWithL (r.map lowerC) name then
      match (r.drop name.length).dropWhile (· ≠ '>') with
      | [] => none
      | _ :: t => some t
    else none
  | _ => none

/-- The text of an element up to its closing tag, and the remainder after
the closing tag. -/
def innerScan (name : List Char) : Nat → List Char → List Char × List Char
  | 0, l => ([], l)
  | fuel + 1, l =>
    match closeTagAt name l with
    | some rest => ([], rest)
    | none =>
      match l with
      | [] => ([], [])
      | c :: t =>
        let p := innerScan name fuel t
        (c :: p.1, p.2)

/-- Model of the browser pipeline at source lines 179-190 — `DOMParser`,
removal of script/style/noscript/iframe/nav/header/footer elements,
main-content selection, `querySelectorAll` over the content tags and
`textContent` — restricted to flat markup: documents without the removed
tags, without a semantic main container (so the body is used) and without
nesting among content elements, which covers every document used below.
Yields the content elements' texts in document order. -/
def domFlatGo : Nat → List Char → List String
  | 0, _ => []
  | fuel + 1, l =>
    match l with
    | [] => []
    | '<' :: rest =>
      let name := (rest.takeWhile (fun c => isAlphaC c || isDigitC c)).map lowerC
      let afterOpenTag :=
        match rest.dropWhile (· ≠ '>') with
        | [] => []
        | _ :: t => t
      if name ∈ contentTags then
        let p := innerScan name afterOpenTag.length afterOpenTag
        String.mk p.1 :: domFlatGo fuel p.2
      else domFlatGo fuel afterOpenTag
    | _ :: t => domFlatGo fuel t

/-- The `Platform.dom` model; a browser's `DOMParser.parseFromString`
never throws, so the result is always `some`. -/
def domFlat (html : String) : Option (List String) :=
  some (domFlatGo html.length html.data)

/-- The concrete browser platform. -/
def browserModel : Platform :=
  { dom := domFlat
    resolve := resolveUrlModel
    pathname := pathnameModel
    decode := decodePercentS }

/-- Modelled from the spec: the URL pre-normalization step — prepending
`https://` when the user-supplied URL lacks a scheme — lives in the
`ScraperForm` component, which is not among the provided sources; it is
modelled from the spec sentence "if it lacks a scheme, the orchestrator
prepends `https://` before use". -/
def normalizeInputUrl (url : String) : String :=
  if isAbsoluteUrl url then url else "https://" ++ url

/-- The orchestrator invoked on the normalized URL (the full pipeline the
spec describes). -/
def scrapeNormalized (env ls : Option String) (pf : Platform) (net : FetchOutcome)
    (url : String) : FirecrawlResult × Nat :=
  scrapeWebsite env ls pf net (normalizeInputUrl url)

/-! ## Lemmas about the text filter -/

theorem ne_empty_of_ten_lt_length (t : String) (h : 10 < t.length) : t ≠ "" := by
  intro he
  subst he
  exact absurd h (by decide)

theorem mem_extractTextsGo_not_seen (seen l : List String) (t : String)
    (h : t ∈ extractTextsGo seen l) : t ∉ seen := by
  induction l generalizing seen with
  | nil => simp [extractTextsGo] at h
  | cons u rest ih =>
    by_cases hc : trimS u ≠ "" ∧ trimS u ∉ seen ∧ 10 < (trimS u).length
    · rw [extractTextsGo, if_pos hc] at h
      rcases List.mem_cons.mp h with h1 | h2
      · subst h1
        exact hc.2.1
      · intro hs
        exact (ih _ h2) (List.mem_cons_of_mem _ hs)
    · rw [extractTextsGo, if_neg hc] at h
      exact ih _ h

theorem nodup_extractTextsGo (seen l : List String) : (extractTextsGo seen l).Nodup := by
  induction l generalizing seen with
  | nil => simp [extractTextsGo]
  | cons u rest ih =>
    by_cases hc : trimS u ≠ "" ∧ trimS u ∉ seen ∧ 10 < (trimS u).length
    · rw [extractTextsGo, if_pos hc]
      refine List.nodup_cons.mpr ⟨fun hm => ?_, ih _⟩
      exact (mem_extractTextsGo_not_seen _ _ _ hm) (List.mem_cons_self _ _)
    · rw [extractTextsGo, if_neg hc]
      exact ih _

theorem mem_extractTextsGo_iff (seen l : List String) (t : String) :
    t ∈ extractTextsGo seen l ↔
      t ∉ seen ∧ ∃ u ∈ l, trimS u = t ∧ 10 < t.length := by
  induction l generalizing seen with
  | nil => simp [extractTextsGo]
  | cons u rest ih =>
    by_cases hc : trimS u ≠ "" ∧ trimS u ∉ seen ∧ 10 < (trimS u).length
    · rw [extractTextsGo, if_pos hc]
      constructor
      · intro h
        rcases List.mem_cons.mp h with h1 | h2
        · subst h1
          exact ⟨hc.2.1, u, List.mem_cons_self u rest, rfl, hc.2.2⟩
        · obtain ⟨hns, v, hv, hveq, hlen⟩ := (ih _).mp h2
          exact ⟨fun hs => hns (List.mem_cons_of_mem _ hs), v,
            List.mem_cons_of_mem _ hv, hveq, hlen⟩
      · rintro ⟨hns, v, hv, hveq, hlen⟩
        by_cases hteq : t = trimS u
        · exact List.mem_cons.mpr (Or.inl hteq)
        · refine List.mem_cons.mpr (Or.inr ((ih _).mpr ⟨?_, v, ?_, hveq, hlen⟩))
          · intro hs
            rcases List.mem_cons.mp hs with h1 | h2
            · exact hteq h1
            · exact hns h2
          · rcases List.mem_cons.mp hv with rfl | hv'
            · exact absurd hveq.symm hteq
            · exact hv'
    · rw [extractTextsGo, if_neg hc]
      rw [ih]
      constructor
      · rintro ⟨hns, v, hv, hveq, hlen⟩
        exact ⟨hns, v, List.mem_cons_of_mem _ hv, hveq, hlen⟩
      · rintro ⟨hns, v, hv, hveq, hlen⟩
        rcases List.mem_cons.mp hv with rfl | hv'
        · exfalso
          subst hveq
          exact hc ⟨ne_empty_of_ten_lt_length _ hlen, hns, hlen⟩
        · exact ⟨hns, v, hv', hveq, hlen⟩

/-- The output url field always equals the url argument. -/
theorem parse_url_field (pf : Platform) (data : PayloadData) (url : String) :
    (parseFirecrawlData pf data url).url = url := by
  rcases h : data.extractedData with _ | ed <;> simp [parseFirecrawlData, h]

/-! ## Provenance of output URLs -/

/-- Every image emitted by one iteration of the image loop carries a `src`
that either starts with `http` (the passthrough branch) or is a successful
resolution against the page URL. -/
theorem processImgTag_src (pf : Platform) (url : String) (tag : List Char)
    (img : ImageItem) (h : processImgTag pf url tag = some img) :
    startsWithS img.src "http" = true ∨ ∃ raw, pf.resolve raw url = some img.src := by
  simp only [processImgTag] at h
  split at h
  · exact absurd h (by simp)
  · split at h
    · obtain rfl := Option.some.injEq _ _ ▸ h
      rename_i hcond
      exact Or.inl (by simpa using hcond)
    · split at h
      · obtain rfl := Option.some.injEq _ _ ▸ h
        rename_i heq
        exact Or.inr ⟨_, heq⟩
      · exact absurd h (by simp)

/-- Every PDF emitted by one iteration of the PDF loop carries an `href`
that either starts with `http` or is a successful resolution against the
page URL. -/
theorem processPdfMatch_href (pf : Platform) (url : String) (m0 v : List Char)
    (p : PdfItem) (h : processPdfMatch pf url m0 v = some p) :
    startsWithS p.href "http" = true ∨ ∃ raw, pf.resolve raw url = some p.href := by
  simp only [processPdfMatch] at h
  by_cases hpdf : endsWithPdfCI v = true
  case neg =>
    rw [if_neg hpdf] at h
    cases h
  rw [if_pos hpdf] at h
  by_cases hhttp : startsWithS (String.mk v) "http" = true
  · rw [if_pos hhttp] at h
    dsimp only at h
    split at h
    · split at h
      · cases h
      · injection h with h2
        subst h2
        exact Or.inl hhttp
    · injection h with h2
      subst h2
      exact Or.inl hhttp
  · rw [if_neg hhttp] at h
    rcases hres : pf.resolve (String.mk v) url with _ | abs
    all_goals rw [hres] at h
    · cases h
    · dsimp only at h
      split at h
      · split at h
        · cases h
        · injection h with h2
          subst h2
          exact Or.inr ⟨String.mk v, hres⟩
      · injection h with h2
        subst h2
        exact Or.inr ⟨String.mk v, hres⟩

/-- Decomposition of the raw-HTML text output: title and description
first (each when truthy, without deduplication), then the filtered element
texts. -/
theorem parse_raw_text (pf : Platform) (data : PayloadData) (url h : String)
    (ts : List String) (hed : data.extractedData = none) (hh : data.html = some h)
    (hne : h ≠ "") (hdom : pf.dom h = some ts) :
    (parseFirecrawlData pf data url).text =
      optPush data.title ++ optPush data.description ++ extractElementTexts ts := by
  obtain ⟨dh, drh, ded, dt, dd⟩ := data
  dsimp only at hed hh ⊢
  subst hed hh
  simp [parseFirecrawlData, jsOr, hne, hdom]

/-! ## Theorems -/

/-- Claim C2: the filename-to-title transform on the three specified
filenames — hyphens and underscores become spaces with title-casing,
a trailing triplet of number groups is dropped, and an all-uppercase
word longer than one character is preserved. -/
theorem c2_filename_titles :
    formatFilenameAsTitle "annual-report-2023.pdf" = "Annual Report 2023" ∧
    formatFilenameAsTitle "Erie-Settle-8-18-11.pdf" = "Erie Settle" ∧
    formatFilenameAsTitle "USER_MANUAL.pdf" = "USER MANUAL" := by decide

/-- Claim C1 (counterexample): on the end-to-end scenario the normalizer
returns neither `text = ["Welcome"]` nor a PDF titled `"Report"`:
`"Welcome"` (7 characters) fails the strictly-greater-than-10 length
filter, and the anchor-regex match ends at the closing quote of the
`href`, so the link text is never found and the title is derived from the
filename instead. -/
theorem c1_counterexample :
    (parseFirecrawlData browserModel
      ⟨some "<body><h1>Welcome</h1><p>Short</p><img src=\"/logo.png\"><a href=\"/doc.pdf\">Report</a></body>",
       none, none, none, none⟩ "https://site.test/page").text ≠ ["Welcome"] ∧
    (parseFirecrawlData browserModel
      ⟨some "<body><h1>Welcome</h1><p>Short</p><img src=\"/logo.png\"><a href=\"/doc.pdf\">Report</a></body>",
       none, none, none, none⟩ "https://site.test/page").pdfs ≠
      [⟨"https://site.test/doc.pdf", "Report"⟩] := by decide

/-- Claim C1 (amended): the scenario's actual output — empty `text` (both
`"Welcome"` and `"Short"` are at most 10 characters), the image resolved
against the origin with default alt `"Image"`, and the PDF link resolved
against the origin with the filename-derived title `"Doc"`. -/
theorem c1_amended :
    parseFirecrawlData browserModel
      ⟨some "<body><h1>Welcome</h1><p>Short</p><img src=\"/logo.png\"><a href=\"/doc.pdf\">Report</a></body>",
       none, none, none, none⟩ "https://site.test/page" =
    { url := "https://site.test/page"
      title := "Scraped Content"
      description := "Content extracted from website"
      text := []
      images := [⟨"https://site.test/logo.png", "Image"⟩]
      pdfs := [⟨"https://site.test/doc.pdf", "Doc"⟩] } := by decide

/-- Claim C4 (code bug): for an anchor whose inner text `"Report"` is
non-empty after trimming, the output title is still the filename-derived
`"Doc"`: the title-from-link-text lookup searches `match[0]`, which ends
at the closing quote of the `href` value and never contains `>...</a>`,
contradicting the source comments at lines 243 and 250. -/
theorem c4_code_bug :
    trimS "Report" ≠ "" ∧
    (parseFirecrawlData browserModel
      ⟨some "<a href=\"/doc.pdf\">Report</a>", none, none, none, none⟩
      "https://site.test/page").pdfs =
      [⟨"https://site.test/doc.pdf", "Doc"⟩] := by decide

/-- Claim C3 (counterexample): a paragraph whose trimmed text has exactly
10 characters is not shorter than the 10-character threshold, yet it is
discarded, because the filter keeps only texts strictly longer than 10
characters. -/
theorem c3_counterexample :
    browserModel.dom "<p>0123456789</p>" = some ["0123456789"] ∧
    ¬ ("0123456789".length < 10) ∧
    "0123456789" ∉ (parseFirecrawlData browserModel
      ⟨some "<p>0123456789</p>", none, none, none, none⟩
      "https://site.test/page").text := by decide

/-- Claim C5 (counterexample): the leading title and description entries
are pushed without deduplication, so a payload whose title and description
coincide yields a duplicated `text` array in raw-HTML mode. -/
theorem c5_counterexample :
    ¬ (parseFirecrawlData browserModel
      ⟨none, none, none, some "Duplicate Title", some "Duplicate Title"⟩
      "https://site.test/page").text.Nodup := by decide

/-- Claim C6 (counterexample): an `img` whose `src` starts with `http`
but is not an absolute URL is passed through unchanged by the
`startsWith('http')` test, so the output contains a non-absolute `src`. -/
theorem c6_counterexample :
    (parseFirecrawlData browserModel
      ⟨some "<img src=\"httpx.png\">", none, none, none, none⟩
      "https://site.test/page").images = [⟨"httpx.png", "Image"⟩] ∧
    isAbsoluteUrl "httpx.png" = false := by decide

/-- Claim C3 (amended): in raw-HTML mode with no payload title or
description, a string occurring among the trimmed content-element texts
appears in the output exactly when it is strictly longer than 10
characters (deduplication affects only multiplicity, not membership). -/
theorem c3_amended (pf : Platform) (data : PayloadData) (url h : String)
    (ts : List String) (t : String) (hed : data.extractedData = none)
    (hh : data.html = some h) (hne : h ≠ "") (hdom : pf.dom h = some ts)
    (ht : data.title = none) (hd : data.description = none)
    (hmem : t ∈ ts.map trimS) :
    t ∈ (parseFirecrawlData pf data url).text ↔ 10 < t.length := by
  rw [parse_raw_text pf data url h ts hed hh hne hdom, ht, hd]
  simp only [optPush, List.nil_append]
  rw [extractElementTexts, mem_extractTextsGo_iff]
  constructor
  · rintro ⟨-, u, -, -, hlen⟩
    exact hlen
  · intro hlen
    obtain ⟨u, hu, hueq⟩ := List.mem_map.mp hmem
    exact ⟨List.not_mem_nil t, u, hu, hueq, hlen⟩

/-- Claim C3 (amended, witness): the 12-character paragraph text
`"Hello world!"` is kept. -/
theorem c3_witness :
    "Hello world!" ∈ (parseFirecrawlData browserModel
      ⟨some "<p>Hello world!</p>", none, none, none, none⟩
      "https://site.test/page").text ↔ 10 < "Hello world!".length :=
  c3_amended browserModel ⟨some "<p>Hello world!</p>", none, none, none, none⟩
    "https://site.test/page" "<p>Hello world!</p>" ["Hello world!"] "Hello world!"
    rfl rfl (by decide) (by decide) rfl rfl (by decide)

/-- Claim C5 (amended): in raw-HTML mode the output text is the truthy
title, then the truthy description, then the element-derived entries, and
the element-derived entries are duplicate-free under exact string
equality; the leading title and description entries are not
deduplicated. -/
theorem c5_amended (pf : Platform) (data : PayloadData) (url h : String)
    (ts : List String) (hed : data.extractedData = none) (hh : data.html = some h)
    (hne : h ≠ "") (hdom : pf.dom h = some ts) :
    (parseFirecrawlData pf data url).text =
      optPush data.title ++ optPush data.description ++ extractElementTexts ts ∧
    (extractElementTexts ts).Nodup :=
  ⟨parse_raw_text pf data url h ts hed hh hne hdom, nodup_extractTextsGo [] ts⟩

/-- Claim C5 (amended, witness): concrete decomposition with a truthy
title and one kept element text. -/
theorem c5_witness :
    (parseFirecrawlData browserModel
      ⟨some "<p>Hello world!</p>", none, none, some "T", none⟩
      "https://site.test/page").text = ["T", "Hello world!"] ∧
    (extractElementTexts ["Hello world!"]).Nodup := by
  have h := c5_amended browserModel
    ⟨some "<p>Hello world!</p>", none, none, some "T", none⟩
    "https://site.test/page" "<p>Hello world!</p>" ["Hello world!"]
    rfl rfl (by decide) (by decide)
  exact ⟨h.1.trans (by decide), h.2⟩

/-- Claim C6 (amended): in raw-HTML mode every output image `src` and PDF
`href` either starts with `http` (the attribute value passed through
unchanged, absolute or not) or is a successful resolution of the raw
value against the origin URL; values that fail to resolve are dropped
with their item. -/
theorem c6_amended (pf : Platform) (data : PayloadData) (url : String)
    (hed : data.extractedData = none) :
    (∀ img ∈ (parseFirecrawlData pf data url).images,
      startsWithS img.src "http" = true ∨ ∃ raw, pf.resolve raw url = some img.src) ∧
    (∀ p ∈ (parseFirecrawlData pf data url).pdfs,
      startsWithS p.href "http" = true ∨ ∃ raw, pf.resolve raw url = some p.href) := by
  obtain ⟨dh, drh, ded, dt, dd⟩ := data
  dsimp only at hed
  subst hed
  constructor
  · intro img hmem
    simp only [parseFirecrawlData] at hmem
    by_cases hh0 : jsOr dh (jsOr drh "") = ""
    · rw [if_pos hh0] at hmem
      cases hmem
    · rw [if_neg hh0] at hmem
      obtain ⟨tag, -, htag⟩ := List.mem_filterMap.mp hmem
      exact processImgTag_src pf url tag img htag
  · intro p hmem
    simp only [parseFirecrawlData] at hmem
    by_cases hh0 : jsOr dh (jsOr drh "") = ""
    · rw [if_pos hh0] at hmem
      cases hmem
    · rw [if_neg hh0] at hmem
      obtain ⟨mv, -, hmv⟩ := List.mem_filterMap.mp hmem
      exact processPdfMatch_href pf url mv.1 mv.2 p hmv

/-- Claim C6 (amended, witness): the resolved image of the end-to-end
scenario. -/
theorem c6_witness :
    startsWithS "https://site.test/logo.png" "http" = true ∨
    ∃ raw, browserModel.resolve raw "https://site.test/page" =
      some "https://site.test/logo.png" := by
  have h := (c6_amended browserModel
    ⟨some "<img src=\"/logo.png\">", none, none, none, none⟩
    "https://site.test/page" rfl).1
    ⟨"https://site.test/logo.png", "Image"⟩ (by decide)
  exact h

/-- Claim C7: in structured mode the output text is the concatenation of
the truthy title, the truthy description and the payload's textContent
array, in order, with no deduplication or length filtering. -/
theorem c7_structured_text (pf : Platform) (data : PayloadData) (url : String)
    (ed : ExtractedData) (hed : data.extractedData = some ed) :
    (parseFirecrawlData pf data url).text =
      optPush ed.title ++ optPush ed.description ++ ed.textContent.getD [] := by
  obtain ⟨dh, drh, ded, dt, dd⟩ := data
  dsimp only at hed
  subst hed
  simp [parseFirecrawlData]

/-- Claim C7 (witness): `textContent = ["A", "A", "B"]` passes through
unchanged, preceded by the title. -/
theorem c7_witness :
    (parseFirecrawlData browserModel
      ⟨none, none, some ⟨some "T", none, some ["A", "A", "B"], none, none⟩, none, none⟩
      "https://site.test/page").text = ["T", "A", "A", "B"] := by
  rw [c7_structured_text browserModel
    ⟨none, none, some ⟨some "T", none, some ["A", "A", "B"], none, none⟩, none, none⟩
    "https://site.test/page" ⟨some "T", none, some ["A", "A", "B"], none, none⟩ rfl]
  decide

/-- Claim C10: in structured mode the output images and pdfs are exactly
the payload's `images` and `pdfLinks` arrays (empty when absent), with no
absolutization, no dropping and no alt defaulting. -/
theorem c10_structured_passthrough (pf : Platform) (data : PayloadData) (url : String)
    (ed : ExtractedData) (hed : data.extractedData = some ed) :
    (parseFirecrawlData pf data url).images = ed.images.getD [] ∧
    (parseFirecrawlData pf data url).pdfs = ed.pdfLinks.getD [] := by
  obtain ⟨dh, drh, ded, dt, dd⟩ := data
  dsimp only at hed
  subst hed
  simp [parseFirecrawlData]

/-- Claim C10 (witness): a relative `src` with empty alt text and a
malformed `.pdf` href pass through unchanged. -/
theorem c10_witness :
    (parseFirecrawlData browserModel
      ⟨none, none, some ⟨none, none, none, some [⟨"img/rel.png", ""⟩],
        some [⟨"ht!tp://bad.pdf", ""⟩]⟩, none, none⟩
      "https://site.test/page").images = [⟨"img/rel.png", ""⟩] ∧
    (parseFirecrawlData browserModel
      ⟨none, none, some ⟨none, none, none, some [⟨"img/rel.png", ""⟩],
        some [⟨"ht!tp://bad.pdf", ""⟩]⟩, none, none⟩
      "https://site.test/page").pdfs = [⟨"ht!tp://bad.pdf", ""⟩] := by
  have h := c10_structured_passthrough browserModel
    ⟨none, none, some ⟨none, none, none, some [⟨"img/rel.png", ""⟩],
      some [⟨"ht!tp://bad.pdf", ""⟩]⟩, none, none⟩
    "https://site.test/page"
    ⟨none, none, none, some [⟨"img/rel.png", ""⟩], some [⟨"ht!tp://bad.pdf", ""⟩]⟩ rfl
  exact ⟨h.1.trans (by decide), h.2.trans (by decide)⟩

/-- Claim C8: when the resolved API key is not truthy, `scrapeWebsite`
returns the missing-credential failure and performs zero network calls. -/
theorem c8_missing_credential (env ls : Option String) (pf : Platform)
    (net : FetchOutcome) (url : String) (h : truthyS (getApiKey env ls) = false) :
    scrapeWebsite env ls pf net url =
      ({ success := false, data := none,
         error := some "API key not found. Please enter your Firecrawl API key." }, 0) := by
  simp [scrapeWebsite, h]

/-- Claim C8 (witness): no environment key and no stored key. -/
theorem c8_witness :
    truthyS (getApiKey none none) = false ∧
    scrapeWebsite none none browserModel (.netThrow "boom") "https://site.test/page" =
      ({ success := false, data := none,
         error := some "API key not found. Please enter your Firecrawl API key." }, 0) :=
  ⟨by decide, c8_missing_credential none none browserModel (.netThrow "boom")
    "https://site.test/page" (by decide)⟩

/-- Claim C9: a non-empty URL lacking a scheme is normalized by prepending
`https://`; the normalized URL is the one recorded in the result's `url`
field and the one passed to the normalizer as the base for resolving
relative links. -/
theorem c9_url_normalization (env ls : Option String) (pf : Platform)
    (d : PayloadData) (url : String) (hne : url ≠ "")
    (hs : isAbsoluteUrl url = false)
    (hk : truthyS (getApiKey env ls) = true) :
    normalizeInputUrl url = "https://" ++ url ∧
    (scrapeNormalized env ls pf (.ok d) url).1.data =
      some (parseFirecrawlData pf d (normalizeInputUrl url)) ∧
    (parseFirecrawlData pf d (normalizeInputUrl url)).url = normalizeInputUrl url := by
  refine ⟨?_, ?_, parse_url_field pf d _⟩
  · simp [normalizeInputUrl, hs]
  · simp [scrapeNormalized, scrapeWebsite, hk]

/-- Claim C9 (witness): the scheme-less URL `site.test/page` with a
configured key. -/
theorem c9_witness :
    normalizeInputUrl "site.test/page" = "https://" ++ "site.test/page" ∧
    (scrapeNormalized (some "k") none browserModel
      (.ok ⟨none, none, none, none, none⟩) "site.test/page").1.data =
      some (parseFirecrawlData browserModel ⟨none, none, none, none, none⟩
        (normalizeInputUrl "site.test/page")) ∧
    (parseFirecrawlData browserModel ⟨none, none, none, none, none⟩
      (normalizeInputUrl "site.test/page")).url = normalizeInputUrl "site.test/page" :=
  c9_url_normalization (some "k") none browserModel ⟨none, none, none, none, none⟩
    "site.test/page" (by decide) (by decide) (by decide)

end Scraper
